import Mathlib

/-!
# Verification of the PyCHMviewer core (`src/pyview.py`)

A shallow embedding of the core of `pyview.py`:

* `HtmlHelpParser` (lines 74–139): the streaming sitemap parser.  Python's
  `html.parser.HTMLParser` tokenizes markup text and invokes the
  `handle_starttag` / `handle_endtag` callbacks; we embed the parser at the
  event level (`HEvent`), translating the two callbacks faithfully.  The
  Python parser mutates a tree of aliased `TocNode` objects through a stack
  of references; we model the object heap as an arena (`List TocData`) with
  child links as arena indices, which represents the aliasing exactly.
* `open_local` (lines 830–862): path resolution with the containment check,
  together with faithful Lean versions of the CPython `posixpath.normpath`
  and `posixpath.join` algorithms and of the Python `str` methods used
  (`strip`, `lower`, `split`, `replace`, `lstrip`, `startswith`).
  `html.unescape` (a large table-driven entity decoder from the standard
  library) is abstracted as an explicit function parameter `ue`; every
  theorem below holds for an arbitrary entity decoder.
* `load_index` (lines 643–667): flatten + case-insensitive sort of the
  index tree.  Python's stable `list.sort(key=...)` is modelled by a
  structural insertion sort (`pySort`); its sortedness, permutation and
  stability properties are proved below, which is exactly the contract of
  Python's sort.
* `_read_text_fallback` (lines 142–150): the encoding fallback chain, with
  byte-accurate strict decoders for utf-8-sig, utf-8, cp1252 and latin-1.
* `load_from_chm_path` (lines 555–604): the load operation, modelled as a
  pure state transition on a `Session`, with the filesystem and the external
  decompiler as an explicit environment.

All definitions are executable; machine-independent (POSIX) path semantics
are used, matching the spec's examples.
-/

/-! ## Python string primitives (over `List Char`)

Lean's built-in `String` functions are implemented on byte positions and do
not reduce well in the kernel, so the Python `str` methods used by the
source are re-implemented structurally on the underlying character lists.
-/

/-- The whitespace characters stripped by Python's `str.strip()`
(ASCII part; the source only ever strips markup/attribute text). -/
def pyIsSpace (c : Char) : Bool :=
  c == ' ' || c == '\t' || c == '\n' || c == '\r' || c == '\x0b' || c == '\x0c'

/-- Python `s.strip()`. -/
def pyStrip (s : String) : String :=
  ⟨((s.data.dropWhile pyIsSpace).reverse.dropWhile pyIsSpace).reverse⟩

/-- Python `s.lower()` (ASCII case mapping, which is all the source needs:
it lowercases tag/attribute names and sort keys). -/
def pyLower (s : String) : String := ⟨s.data.map Char.toLower⟩

/-- Python `s.split(sep)` for a one-character separator `c`
(the source splits on `"#"` and `"/"`). -/
def splitOnChar (c : Char) : List Char → List (List Char)
  | [] => [[]]
  | x :: xs =>
    let r := splitOnChar c xs
    if x == c then [] :: r
    else
      match r with
      | [] => [[x]]
      | h :: t => (x :: h) :: t

/-- Python `sub in s` (substring containment). -/
def containsSub (sub : List Char) (cs : List Char) : Bool :=
  cs.tails.any (fun t => sub.isPrefixOf t)

/-- Python `s.startswith(pre)`. -/
def startsWithS (s pre : String) : Bool := pre.data.isPrefixOf s.data

/-- Python `s.endswith(suf)`. -/
def endsWithS (s suf : String) : Bool := suf.data.isSuffixOf s.data

/-- `'c'.join(parts)` on character lists. -/
def joinSep (c : Char) : List (List Char) → List Char
  | [] => []
  | [x] => x
  | x :: xs => x ++ c :: joinSep c xs

/-- Python `or` on an optional string with a string default:
`None` and `""` are falsy. -/
def pyOrS (o : Option String) (d : String) : String :=
  match o with
  | some v => if v = "" then d else v
  | none => d

/-- Lexicographic code-point order on character lists: Python's `<=`
on strings. -/
def charsLe : List Char → List Char → Bool
  | [], _ => true
  | _ :: _, [] => false
  | a :: as, b :: bs =>
    if a.toNat < b.toNat then true
    else if b.toNat < a.toNat then false
    else charsLe as bs

/-- Python `a <= b` on strings. -/
def pyStrLe (a b : String) : Bool := charsLe a.data b.data

/-! ## The sitemap parser (`HtmlHelpParser`, pyview.py lines 67–139)

`TocNode` in Python is a mutable dataclass; nodes are shared between the
tree under construction and the parser's container stack (`_stack`), and
`children` lists are mutated in place.  We therefore model the node heap as
an arena: `TocData` stores a node's fields with children as arena indices,
and `ParserState.arena` is the heap (index 0 is the synthetic root
`TocNode("ROOT")`). -/

/-- One `TocNode` as stored in the arena; `children` holds arena indices. -/
structure TocData where
  title : String
  loc : Option String
  children : List Nat
deriving DecidableEq, Repr

/-- The mutable state of `HtmlHelpParser` (`__init__`, lines 84–94).
`stack` holds arena indices, head = top of stack (= Python `_stack[-1]`). -/
structure ParserState where
  arena : List TocData
  stack : List Nat
  inObject : Bool
  curName : Option String
  curLocal : Option String
  lastCreated : Option Nat
  pendingPushOnUl : Bool
deriving DecidableEq, Repr

/-- `HtmlHelpParser.__init__`: root node `TocNode("ROOT")`, stack `[root]`. -/
def initState : ParserState :=
  { arena := [⟨"ROOT", none, []⟩], stack := [0], inObject := false,
    curName := none, curLocal := none, lastCreated := none,
    pendingPushOnUl := false }

/-- One markup event as delivered by Python's `HTMLParser` to the two
overridden callbacks.  Attribute values may be `None` in Python
(valueless attributes), hence `Option String`.  Data/decl/comment events
are ignored by the source (`unknown_decl` is a no-op and `handle_data`
is not overridden), represented by `other`. -/
inductive HEvent where
  | startTag (tag : String) (attrs : List (String × Option String))
  | endTag (tag : String)
  | other
deriving DecidableEq, Repr

/-- `attrs = {k.lower(): v for k, v in attrs}` followed by `attrs.get(key)`:
a Python dict comprehension keeps the last binding of a duplicate key. -/
def attrGet (attrs : List (String × Option String)) (key : String) :
    Option (Option String) :=
  (attrs.filterMap (fun kv => if pyLower kv.1 = key then some kv.2 else none)).getLast?

/-- `(attrs.get(key) or "")`: missing keys and `None` values give `""`
(`v or ""` is the identity on strings — `""` is already `""`). -/
def attrStr (attrs : List (String × Option String)) (key : String) : String :=
  match attrGet attrs key with
  | some (some v) => v
  | _ => ""

/-- `self._stack[-1].children.append(node)`: append child index `j` to the
children of arena node `i`.  (In Python the stack always holds live nodes,
so the lookup cannot fail; the `none` branch is unreachable.) -/
def appendChild (arena : List TocData) (i : Nat) (j : Nat) : List TocData :=
  match arena.get? i with
  | some d => arena.set i { d with children := d.children ++ [j] }
  | none => arena

/-- `HtmlHelpParser.handle_starttag` (lines 96–118), translated clause by
clause.  `tag` is lowercased; an `object` tag whose `type` attribute
contains `text/sitemap` opens an entry; `param` tags inside an entry record
`Name`/`Local` values (stripped); a `ul` tag pushes the last created node
onto the container stack only when a push is pending. -/
def handle_starttag (st : ParserState) (tag : String)
    (attrs : List (String × Option String)) : ParserState :=
  let tag := pyLower tag
  if tag = "object" then
    if containsSub "text/sitemap".data (pyLower (attrStr attrs "type")).data then
      { st with inObject := true, curName := none, curLocal := none }
    else st
  else if tag = "param" then
    if st.inObject then
      let name := pyLower (attrStr attrs "name")
      let value := pyStrip (attrStr attrs "value")
      if name = "name" then { st with curName := some value }
      else if name = "local" then { st with curLocal := some value }
      else st
    else st
  else if tag = "ul" then
    if st.pendingPushOnUl then
      match st.lastCreated with
      | some n => { st with stack := n :: st.stack, pendingPushOnUl := false }
      | none => st
    else st
  else st

/-- `title = (self._cur_name or "Untitled").strip()` (line 125). -/
def closeTitle (o : Option String) : String := pyStrip (pyOrS o "Untitled")

/-- `local = (self._cur_local or "").strip() or None` (line 126). -/
def closeLoc (o : Option String) : Option String :=
  let v := pyStrip (pyOrS o "")
  if v = "" then none else some v

/-- `HtmlHelpParser.handle_endtag` (lines 120–136): closing an open entry
creates the node, appends it to the current container's children and makes
a push pending; closing a `ul` pops the stack unless only the root
remains. -/
def handle_endtag (st : ParserState) (tag : String) : ParserState :=
  let tag := pyLower tag
  if tag = "object" then
    if st.inObject then
      let node : TocData := ⟨closeTitle st.curName, closeLoc st.curLocal, []⟩
      let n := st.arena.length
      { st with
        inObject := false,
        arena := appendChild (st.arena ++ [node]) (st.stack.headD 0) n,
        lastCreated := some n,
        pendingPushOnUl := true }
    else st
  else if tag = "ul" then
    if 1 < st.stack.length then { st with stack := st.stack.tail } else st
  else st

/-- Dispatch one event to the corresponding callback. -/
def stepEvent (st : ParserState) : HEvent → ParserState
  | .startTag t a => handle_starttag st t a
  | .endTag t => handle_endtag st t
  | .other => st

/-- `HTMLParser.feed`: process a stream of events. -/
def feed (st : ParserState) (evs : List HEvent) : ParserState :=
  evs.foldl stepEvent st

/-! ## Path resolution (`MainWindow.open_local`, pyview.py lines 830–862) -/

/-- CPython `posixpath.normpath`, translated clause by clause: collapse
empty and `.` components, resolve `..` (keeping leading `..` of relative
paths, dropping `..` at the root), preserve the POSIX double-slash
special case, and return `.` for an empty result. -/
def normpath (p : String) : String :=
  if p = "" then "." else
  let slashes : Nat :=
    if startsWithS p "/" then
      if startsWithS p "//" ∧ ¬ startsWithS p "///" then 2 else 1
    else 0
  let comps := splitOnChar '/' p.data
  let newComps := comps.foldl (fun acc comp =>
    if comp = [] ∨ comp = ['.'] then acc
    else if comp ≠ ['.', '.'] ∨ (slashes = 0 ∧ acc = [])
        ∨ acc.getLast? = some ['.', '.'] then acc ++ [comp]
    else acc.dropLast) []
  let joined := List.replicate slashes '/' ++ joinSep '/' newComps
  if joined = [] then "." else ⟨joined⟩

/-- CPython `posixpath.join a b` for a single right operand. -/
def posixJoin (a b : String) : String :=
  if startsWithS b "/" then b
  else if a = "" ∨ endsWithS a "/" then a ++ b
  else a ++ "/" ++ b

/-- `re.match(r"^[a-zA-Z]+://", local)` (line 839): a non-empty ASCII
letter run followed by `://` at the start of the string. -/
def isAbsUri (s : String) : Bool :=
  let letters := s.data.takeWhile Char.isAlpha
  decide (letters ≠ []) && ((s.data.drop letters.length).take 3 == [':', '/', '/'])

/-- `(local.split("#", 1) + [""])[:2]` (line 844): split off the fragment
at the first `#`. -/
def splitFragment (l : String) : String × String :=
  match splitOnChar '#' l.data with
  | [] => ("", "")
  | p :: rest => (⟨p⟩, ⟨joinSep '#' rest⟩)

/-- `path_part.replace("\\", "/").lstrip("/")` (line 845). -/
def cleanRel (p : String) : String :=
  ⟨(p.data.map (fun c => if c == '\\' then '/' else c)).dropWhile (· == '/')⟩

/-- `os.path.normpath(os.path.join(self.base_dir, path_part))` (line 847):
the resolved absolute path for a relative target. -/
def resolveTarget (base l : String) : String :=
  normpath (posixJoin base (cleanRel (splitFragment l).1))

/-- The externally observable outcome of `open_local`: do nothing, pass an
absolute URI straight to the web view, show one of the two warning boxes
(fail closed, no file opened), or open the resolved file with an optional
fragment. -/
inductive OpenAction where
  | noop
  | external (url : String)
  | warnEscape (path : String)
  | warnNotFound (path : String)
  | openFile (path : String) (frag : String)
deriving DecidableEq, Repr

/-- Python truthiness of `self.base_dir : Optional[str]`. -/
def truthyBase : Option String → Bool
  | none => false
  | some s => decide (s ≠ "")

/-- `MainWindow.open_local` (lines 830–862), translated clause by clause.
`ue` stands for `html.unescape` (an arbitrary entity decoder), `bd` for
`self.base_dir`, `fs` for `os.path.exists`.  POSIX path semantics. -/
def open_local (ue : String → String) (bd : Option String) (loc : String)
    (fs : String → Bool) : OpenAction :=
  if ¬ truthyBase bd then .noop else
  let base := bd.getD ""
  let l := ue (pyStrip loc)
  if l = "" then .noop else
  if isAbsUri l then .external l else
  let frag := (splitFragment l).2
  let abs := resolveTarget base l
  if ¬ startsWithS (normpath abs) (normpath base) then .warnEscape abs
  else if ¬ fs abs then .warnNotFound abs
  else .openFile abs frag

/-! ## The navigation tree and the index builder
(`TocNode`, `parse_hh_file`, `MainWindow.load_index`, lines 67–71, 153–157,
643–667) -/

/-- The `TocNode` dataclass as an immutable tree (the shape of the parse
result once parsing is finished and the arena is read back). -/
inductive TocNode where
  | node (title : String) (loc : Option String) (children : List TocNode)
deriving Repr

def TocNode.title : TocNode → String
  | .node t _ _ => t

def TocNode.loc : TocNode → Option String
  | .node _ l _ => l

def TocNode.children : TocNode → List TocNode
  | .node _ _ c => c

/-- Read the tree rooted at arena index `i` back out of the arena.
`fuel` bounds the recursion depth; for parser-produced arenas child indices
strictly increase along any path, so `fuel = arena.length` always
suffices and the fallback node is unreachable. -/
def buildTree (arena : List TocData) : Nat → Nat → TocNode
  | 0, _ => .node "ROOT" none []
  | fuel + 1, i =>
    match arena.get? i with
    | some d => .node d.title d.loc (d.children.map (buildTree arena fuel))
    | none => .node "ROOT" none []

/-- `parse_hh_file` (lines 153–157) at the event level: feed the event
stream of one sitemap file and return the root node. -/
def parse_root (evs : List HEvent) : TocNode :=
  let st := feed initState evs
  buildTree st.arena st.arena.length 0

mutual

/-- The `walk` closure of `load_index` (lines 650–654): depth-first
pre-order collection of `(title, local)` for nodes whose `local` is truthy
(not `None` and not `""`). -/
def walkNode : TocNode → List (String × String)
  | .node t l cs =>
    (match l with
     | some s => if s = "" then [] else [(t, s)]
     | none => []) ++ walkNodes cs

/-- `for c in n.children: walk(c)` — the list version of `walkNode`. -/
def walkNodes : List TocNode → List (String × String)
  | [] => []
  | c :: cs => walkNode c ++ walkNodes cs

end

/-- Stable insertion: place `x` before the first element `h` with
`le x h`.  Elements are inserted in original order (see `pySort`), so
equal-key elements keep their input order: together with `pySort_pairwise`
and `pySort_perm` below this is exactly the contract of Python's stable
`list.sort`. -/
def pyInsert (le : α → α → Bool) (x : α) : List α → List α
  | [] => [x]
  | h :: t => if le x h then x :: h :: t else h :: pyInsert le x t

/-- Model of Python's stable sort (`list.sort` / Timsort): a structural
insertion sort.  Python's sort is extensionally determined by being a
sorted, stable permutation, which is proved of `pySort` below. -/
def pySort (le : α → α → Bool) : List α → List α
  | [] => []
  | x :: xs => pyInsert le x (pySort le xs)

/-- `items.sort(key=lambda x: x[0].lower())` (line 659): the comparison on
`(title, local)` pairs induced by the case-insensitive key. -/
def sortKeyLe (a b : String × String) : Bool :=
  charsLe (pyLower a.1).data (pyLower b.1).data

/-- `MainWindow.load_index` (lines 643–667), data part: flatten the parsed
index tree from the root's children and sort case-insensitively. -/
def load_index_items (root : TocNode) : List (String × String) :=
  pySort sortKeyLe (walkNodes root.children)

mutual

/-- Spec-side notion: the depth-first pre-order listing of a tree's nodes. -/
def preorderNode : TocNode → List TocNode
  | .node t l cs => .node t l cs :: preorderNodes cs

/-- Pre-order listing of a forest. -/
def preorderNodes : List TocNode → List TocNode
  | [] => []
  | c :: cs => preorderNode c ++ preorderNodes cs

end

/-- Spec-side notion: the `(title, target)` pair contributed by a single
node — `none` exactly for nodes without a non-empty target. -/
def collectOne (nd : TocNode) : Option (String × String) :=
  match nd.loc with
  | some s => if s = "" then none else some (nd.title, s)
  | none => none

/-! ## Encoding fallback (`_read_text_fallback`, pyview.py lines 142–150)

File bytes are modelled as `List (Fin 256)`.  The four strict decoders of
the source's fallback list are implemented byte-accurately; the final
`errors="ignore"` open never fails by construction. -/

/-- A UTF-8 continuation byte (`0x80–0xBF`). -/
def isCont (b : Fin 256) : Bool := decide (0x80 ≤ b.val) && decide (b.val < 0xC0)

/-- Strict UTF-8 decoding as in CPython (`errors="strict"`): rejects lone
continuation bytes, overlong forms, surrogate code points and code points
above `0x10FFFF`. -/
def utf8DecodeStrict : List (Fin 256) → Option (List Char)
  | [] => some []
  | b :: rest =>
    if b.val < 0x80 then
      (utf8DecodeStrict rest).map (fun cs => Char.ofNat b.val :: cs)
    else if b.val < 0xC2 then none
    else if b.val < 0xE0 then
      match rest with
      | c1 :: rest2 =>
        if isCont c1 then
          (utf8DecodeStrict rest2).map (fun cs =>
            Char.ofNat ((b.val - 0xC0) * 0x40 + (c1.val - 0x80)) :: cs)
        else none
      | [] => none
    else if b.val < 0xF0 then
      match rest with
      | c1 :: c2 :: rest2 =>
        if (if b.val = 0xE0 then decide (0xA0 ≤ c1.val) && decide (c1.val < 0xC0)
            else if b.val = 0xED then decide (0x80 ≤ c1.val) && decide (c1.val < 0xA0)
            else isCont c1) && isCont c2 then
          (utf8DecodeStrict rest2).map (fun cs =>
            Char.ofNat ((b.val - 0xE0) * 0x1000 + (c1.val - 0x80) * 0x40
              + (c2.val - 0x80)) :: cs)
        else none
      | _ => none
    else if b.val < 0xF5 then
      match rest with
      | c1 :: c2 :: c3 :: rest2 =>
        if (if b.val = 0xF0 then decide (0x90 ≤ c1.val) && decide (c1.val < 0xC0)
            else if b.val = 0xF4 then decide (0x80 ≤ c1.val) && decide (c1.val < 0x90)
            else isCont c1) && isCont c2 && isCont c3 then
          (utf8DecodeStrict rest2).map (fun cs =>
            Char.ofNat ((b.val - 0xF0) * 0x40000 + (c1.val - 0x80) * 0x1000
              + (c2.val - 0x80) * 0x40 + (c3.val - 0x80)) :: cs)
        else none
      | _ => none
    else none

/-- Strict `utf-8-sig`: strip a leading byte-order mark if present, then
decode as strict UTF-8. -/
def utf8SigDecode (bs : List (Fin 256)) : Option (List Char) :=
  match bs with
  | b0 :: b1 :: b2 :: rest =>
    if b0.val = 0xEF ∧ b1.val = 0xBB ∧ b2.val = 0xBF then utf8DecodeStrict rest
    else utf8DecodeStrict bs
  | _ => utf8DecodeStrict bs

/-- The cp1252 code-point table for one byte: bytes `0x81, 0x8D, 0x8F,
0x90, 0x9D` are undefined in cp1252 and make strict decoding fail. -/
def cp1252Map (n : Nat) : Option Nat :=
  if n < 0x80 then some n
  else if 0xA0 ≤ n then some n
  else match n with
    | 0x80 => some 0x20AC
    | 0x82 => some 0x201A
    | 0x83 => some 0x0192
    | 0x84 => some 0x201E
    | 0x85 => some 0x2026
    | 0x86 => some 0x2020
    | 0x87 => some 0x2021
    | 0x88 => some 0x02C6
    | 0x89 => some 0x2030
    | 0x8A => some 0x0160
    | 0x8B => some 0x2039
    | 0x8C => some 0x0152
    | 0x8E => some 0x017D
    | 0x91 => some 0x2018
    | 0x92 => some 0x2019
    | 0x93 => some 0x201C
    | 0x94 => some 0x201D
    | 0x95 => some 0x2022
    | 0x96 => some 0x2013
    | 0x97 => some 0x2014
    | 0x98 => some 0x02DC
    | 0x99 => some 0x2122
    | 0x9A => some 0x0161
    | 0x9B => some 0x203A
    | 0x9C => some 0x0153
    | 0x9E => some 0x017E
    | 0x9F => some 0x0178
    | _ => none

/-- Strict cp1252 decoding. -/
def cp1252Decode (bs : List (Fin 256)) : Option (List Char) :=
  bs.mapM (fun b => (cp1252Map b.val).map Char.ofNat)

/-- Strict latin-1 decoding.  Every byte `b` is assigned code point `U+b`,
so latin-1 decoding is total: the strict chain of `_read_text_fallback`
can never exhaust all four encodings. -/
def latin1Decode (bs : List (Fin 256)) : Option (List Char) :=
  some (bs.map (fun b => Char.ofNat b.val))

/-- UTF-8 decoding with `errors="ignore"`: undecodable byte runs are
skipped.  (Skipping the leading byte of a rejected sequence and rescanning
is equivalent to CPython's maximal-subpart skipping because continuation
bytes are never valid sequence starts.)  Unreachable in
`read_text_fallback` since latin-1 already never fails. -/
def utf8DecodeIgnore : List (Fin 256) → List Char
  | [] => []
  | b :: rest =>
    if b.val < 0x80 then Char.ofNat b.val :: utf8DecodeIgnore rest
    else if b.val < 0xC2 then utf8DecodeIgnore rest
    else if b.val < 0xE0 then
      match rest with
      | c1 :: rest2 =>
        if isCont c1 then
          Char.ofNat ((b.val - 0xC0) * 0x40 + (c1.val - 0x80)) :: utf8DecodeIgnore rest2
        else utf8DecodeIgnore (c1 :: rest2)
      | [] => []
    else if b.val < 0xF0 then
      match rest with
      | c1 :: c2 :: rest2 =>
        if (if b.val = 0xE0 then decide (0xA0 ≤ c1.val) && decide (c1.val < 0xC0)
            else if b.val = 0xED then decide (0x80 ≤ c1.val) && decide (c1.val < 0xA0)
            else isCont c1) && isCont c2 then
          Char.ofNat ((b.val - 0xE0) * 0x1000 + (c1.val - 0x80) * 0x40 + (c2.val - 0x80))
            :: utf8DecodeIgnore rest2
        else utf8DecodeIgnore (c1 :: c2 :: rest2)
      | [c1] => utf8DecodeIgnore [c1]
      | [] => []
    else if b.val < 0xF5 then
      match rest with
      | c1 :: c2 :: c3 :: rest2 =>
        if (if b.val = 0xF0 then decide (0x90 ≤ c1.val) && decide (c1.val < 0xC0)
            else if b.val = 0xF4 then decide (0x80 ≤ c1.val) && decide (c1.val < 0x90)
            else isCont c1) && isCont c2 && isCont c3 then
          Char.ofNat ((b.val - 0xF0) * 0x40000 + (c1.val - 0x80) * 0x1000
              + (c2.val - 0x80) * 0x40 + (c3.val - 0x80)) :: utf8DecodeIgnore rest2
        else utf8DecodeIgnore (c1 :: c2 :: c3 :: rest2)
      | [c1, c2] => utf8DecodeIgnore [c1, c2]
      | [c1] => utf8DecodeIgnore [c1]
      | [] => []
    else utf8DecodeIgnore rest
termination_by l => l.length
decreasing_by all_goals simp <;> omega

/-- `_read_text_fallback` (lines 142–150): try the fixed ordered list
`utf-8-sig`, `utf-8`, `cp1252`, `latin-1` with strict error handling,
returning the first success; if every strict attempt failed, fall back to
permissive UTF-8 decoding.  Total — it returns a decoded string for every
byte input. -/
def read_text_fallback (bs : List (Fin 256)) : String :=
  match utf8SigDecode bs with
  | some cs => ⟨cs⟩
  | none =>
    match utf8DecodeStrict bs with
    | some cs => ⟨cs⟩
    | none =>
      match cp1252Decode bs with
      | some cs => ⟨cs⟩
      | none =>
        match latin1Decode bs with
        | some cs => ⟨cs⟩
        | none => ⟨utf8DecodeIgnore bs⟩

/-! ## Loading an archive (`MainWindow.load_from_chm_path`, lines 555–604)

The session state is the base directory plus the two trees; the web view,
window chrome and Qt models are presentation, not data, and are outside the
model.  The filesystem and the external decompiler are an explicit
environment. -/

/-- `os.rfind`-style search: index of the last occurrence of `c`. -/
def rfindChar (c : Char) (cs : List Char) : Option Nat :=
  match cs.reverse.findIdx? (fun x => x == c) with
  | some k => some (cs.length - 1 - k)
  | none => none

/-- CPython `posixpath.dirname`. -/
def dirname (p : String) : String :=
  match rfindChar '/' p.data with
  | none => ""
  | some i =>
    let head := p.data.take (i + 1)
    if head.all (fun c => c == '/') then ⟨head⟩
    else ⟨(head.reverse.dropWhile (fun c => c == '/')).reverse⟩

/-- CPython `posixpath.basename`. -/
def basename (p : String) : String :=
  match rfindChar '/' p.data with
  | none => p
  | some i => ⟨p.data.drop (i + 1)⟩

/-- `os.path.splitext(p)[0]`: drop the extension after the last dot,
unless the dot only leads the basename (`.bashrc` has no extension). -/
def splitextStem (p : String) : String :=
  let cs := p.data
  match rfindChar '.' cs with
  | none => p
  | some d =>
    let start := match rfindChar '/' cs with
      | none => 0
      | some s => s + 1
    if start ≤ d ∧ ((cs.drop start).take (d - start)).any (fun c => !(c == '.')) then
      ⟨cs.take d⟩
    else p

/-- The data the viewer session keeps (`NavigationSession` of the spec):
`base_dir`, the parsed contents tree (as its arena) and the flattened
sorted index list. -/
structure Session where
  base_dir : Option String
  contents : List TocData
  index : List (String × String)
deriving DecidableEq, Repr

/-- The environment `load_from_chm_path` interacts with: `fileExists` is
`os.path.exists`; `events p` is the markup event stream obtained from
file `p` (read via the encoding fallback and tokenized by Python's
`HTMLParser` — tokenization itself is outside the model); `tmpDir` is the
fresh directory `tempfile.mkdtemp` returns; `decompileOk` is the outcome of
`decompile_chm_windows`; `foundHhc`/`foundHhk` are the results of
`_find_first(tmp, ".hhc"/".hhk")` (dependent on `os.listdir` order). -/
structure LoadEnv where
  fileExists : String → Bool
  events : String → List HEvent
  tmpDir : String
  decompileOk : Bool
  foundHhc : Option String
  foundHhk : Option String

/-- The reported outcome of a load: the two success paths, or the two
fail-and-warn paths (`QMessageBox.warning` at lines 580–586 and 594). -/
inductive LoadResult where
  | okSideCar
  | okDecompiled
  | errNoDecompile
  | errNoHhc
deriving DecidableEq, Repr

/-- `MainWindow.load_contents` (lines 636–641), data part: reparse the
contents tree (the Qt item model it populates is presentation). -/
def load_contents_session (env : LoadEnv) (s : Session) (p : String) : Session :=
  { s with contents := (feed initState (env.events p)).arena }

/-- `MainWindow.load_index` (lines 643–667) as a session update. -/
def load_index_session (env : LoadEnv) (s : Session) (p : String) : Session :=
  { s with index := load_index_items (parse_root (env.events p)) }

/-- `MainWindow.load_from_chm_path` (lines 555–604), translated clause by
clause: prefer side-car `.hhc`/`.hhk` next to the archive; otherwise
decompile to a temp dir and search it; on either failure path return
without touching the session (`open_start_page` only drives the web view
and is outside the session model). -/
def load_from_chm_path (env : LoadEnv) (s : Session) (chm_path : String) :
    Session × LoadResult :=
  let folder := dirname chm_path
  let stem := splitextStem (basename chm_path)
  let hhc := posixJoin folder (stem ++ ".hhc")
  let hhk := posixJoin folder (stem ++ ".hhk")
  if env.fileExists hhc then
    let s1 := load_contents_session env { s with base_dir := some folder } hhc
    let s2 :=
      if env.fileExists hhk then load_index_session env s1 hhk
      else { s1 with index := [] }
    (s2, .okSideCar)
  else if ¬ env.decompileOk then
    (s, .errNoDecompile)
  else
    match env.foundHhc with
    | none => (s, .errNoHhc)
    | some hhcFound =>
      let s1 := load_contents_session env { s with base_dir := some env.tmpDir } hhcFound
      let s2 :=
        match env.foundHhk with
        | some hhkFound => load_index_session env s1 hhkFound
        | none => { s1 with index := [] }
      (s2, .okDecompiled)

/-! ## Event streams for nested sitemaps (spec property P1 / claim C3)

A sitemap with top-level entries each immediately followed by a nested
sub-list is described by a list of groups: each group is one top-level
entry `(Name, Local)` together with the entries of its nested `<UL>`. -/

/-- The events of one `<OBJECT type="text/sitemap">…</OBJECT>` entry with
`Name` and `Local` params. -/
def entryEvents (p : String × String) : List HEvent :=
  [.startTag "object" [("type", some "text/sitemap")],
   .startTag "param" [("name", some "Name"), ("value", some p.1)],
   .startTag "param" [("name", some "Local"), ("value", some p.2)],
   .endTag "object"]

/-- The events of a run of consecutive entries. -/
def entriesEvents : List (String × String) → List HEvent
  | [] => []
  | p :: ps => entryEvents p ++ entriesEvents ps

/-- One top-level entry immediately followed by its nested sub-list. -/
def groupEvents (g : (String × String) × List (String × String)) : List HEvent :=
  entryEvents g.1 ++ [.startTag "ul" []] ++ entriesEvents g.2 ++ [.endTag "ul"]

/-- The whole sitemap: the groups in order. -/
def sitemapEvents : List ((String × String) × List (String × String)) → List HEvent
  | [] => []
  | g :: gs => groupEvents g ++ sitemapEvents gs

/-- The title a parsed entry ends up with, given the raw `Name` value
(param values are stripped on collection, then `or "Untitled"` on close). -/
def entryTitle (raw : String) : String := closeTitle (some (pyStrip raw))

/-- The target a parsed entry ends up with, given the raw `Local` value. -/
def entryLoc (raw : String) : Option String := closeLoc (some (pyStrip raw))

/-- The freshly created arena node of an entry (children still empty). -/
def entryNode (p : String × String) : TocData := ⟨entryTitle p.1, entryLoc p.2, []⟩

/-- Expected arena effect of one group fed from a root-level state with
arena `A`: the root (index 0) gains child `A.length`; the top entry is
appended with its `g.2.length` sub-entries as children; the sub-entry
nodes follow. -/
def groupArena (A : List TocData)
    (g : (String × String) × List (String × String)) : List TocData :=
  appendChild A 0 A.length ++
    ⟨entryTitle g.1.1, entryLoc g.1.2, List.range' (A.length + 1) g.2.length⟩ ::
      g.2.map entryNode

/-- Expected arena after all groups. -/
def groupsArena (A : List TocData) :
    List ((String × String) × List (String × String)) → List TocData
  | [] => A
  | g :: gs => groupsArena (groupArena A g) gs

/-- The arena node of a top-level entry placed at index `n`. -/
def topdData (n : Nat) (g : (String × String) × List (String × String)) : TocData :=
  ⟨entryTitle g.1.1, entryLoc g.1.2, List.range' (n + 1) g.2.length⟩

/-- The arena block a group occupies, its top entry at index `n`. -/
def gBlock (n : Nat) (g : (String × String) × List (String × String)) : List TocData :=
  topdData n g :: g.2.map entryNode

/-- Number of arena nodes a group contributes. -/
def gSize (g : (String × String) × List (String × String)) : Nat := 1 + g.2.length

/-- The arena indices of the top-level entries, when the first group
starts at index `n`. -/
def topIdxs (n : Nat) : List ((String × String) × List (String × String)) → List Nat
  | [] => []
  | g :: gs => n :: topIdxs (n + gSize g) gs

/-- The concatenated arena blocks of the groups starting at index `n`. -/
def gBlocks (n : Nat) : List ((String × String) × List (String × String)) → List TocData
  | [] => []
  | g :: gs => gBlock n g ++ gBlocks (n + gSize g) gs


/-- Invariant: the stack is non-empty with the root index `0` at its
bottom; and as long as no entry has been closed (the arena still only
holds the root), no node reference has been recorded and no push pends. -/
def ParserInv (st : ParserState) : Prop :=
  st.stack ≠ [] ∧ st.stack.getLast? = some 0 ∧ 0 < st.arena.length ∧
    (1 < st.arena.length ∨ (st.lastCreated = none ∧ st.pendingPushOnUl = false))

/-! ## Basic facts about the parser step functions -/

theorem feed_nil (st : ParserState) : feed st [] = st := rfl

theorem feed_cons (st : ParserState) (e : HEvent) (evs : List HEvent) :
    feed st (e :: evs) = feed (stepEvent st e) evs := rfl

theorem handle_starttag_ul (st : ParserState) (attrs : List (String × Option String)) :
    handle_starttag st "ul" attrs =
      if st.pendingPushOnUl then
        match st.lastCreated with
        | some n => { st with stack := n :: st.stack, pendingPushOnUl := false }
        | none => st
      else st := rfl

theorem handle_endtag_ul (st : ParserState) :
    handle_endtag st "ul" =
      if 1 < st.stack.length then { st with stack := st.stack.tail } else st := rfl

theorem handle_starttag_arena (st : ParserState) (t : String)
    (a : List (String × Option String)) :
    (handle_starttag st t a).arena = st.arena := by
  unfold handle_starttag
  dsimp only
  repeat' split
  all_goals rfl

theorem handle_starttag_lastCreated (st : ParserState) (t : String)
    (a : List (String × Option String)) :
    (handle_starttag st t a).lastCreated = st.lastCreated := by
  unfold handle_starttag
  dsimp only
  repeat' split
  all_goals rfl

theorem handle_starttag_pending (st : ParserState) (t : String)
    (a : List (String × Option String)) :
    (handle_starttag st t a).pendingPushOnUl = st.pendingPushOnUl ∨
      (handle_starttag st t a).pendingPushOnUl = false := by
  unfold handle_starttag
  dsimp only
  repeat' split
  all_goals simp

theorem handle_starttag_stack (st : ParserState) (t : String)
    (a : List (String × Option String)) :
    (handle_starttag st t a).stack = st.stack ∨
    ∃ n, (handle_starttag st t a).stack = n :: st.stack := by
  unfold handle_starttag
  dsimp only
  repeat' split
  all_goals simp

theorem handle_endtag_object_arena (st : ParserState) (t : String) :
    ((handle_endtag st t).arena = st.arena ∧
     (handle_endtag st t).lastCreated = st.lastCreated ∧
     (handle_endtag st t).pendingPushOnUl = st.pendingPushOnUl ∧
     (handle_endtag st t).stack = st.stack) ∨
    ((handle_endtag st t).arena.length = st.arena.length + 1 ∧
     (handle_endtag st t).stack = st.stack) ∨
    (1 < st.stack.length ∧ (handle_endtag st t).stack = st.stack.tail ∧
     (handle_endtag st t).arena = st.arena ∧
     (handle_endtag st t).lastCreated = st.lastCreated ∧
     (handle_endtag st t).pendingPushOnUl = st.pendingPushOnUl) := by
  unfold handle_endtag
  dsimp only
  repeat' split
  · right; left
    constructor
    · show (appendChild (st.arena ++ [_]) _ _).length = st.arena.length + 1
      rw [show (appendChild (st.arena ++ [(⟨closeTitle st.curName, closeLoc st.curLocal, []⟩ : TocData)]) (st.stack.headD 0) st.arena.length).length = (st.arena ++ [(⟨closeTitle st.curName, closeLoc st.curLocal, []⟩ : TocData)]).length from by
        unfold appendChild
        split <;> simp]
      simp
    · rfl
  · left; exact ⟨rfl, rfl, rfl, rfl⟩
  · right; right
    refine ⟨by assumption, rfl, rfl, rfl, rfl⟩
  · left; exact ⟨rfl, rfl, rfl, rfl⟩
  · left; exact ⟨rfl, rfl, rfl, rfl⟩

theorem stepEvent_inv (st : ParserState) (e : HEvent) (h : ParserInv st) :
    ParserInv (stepEvent st e) := by
  obtain ⟨h1, h2, h3, h4⟩ := h
  cases e with
  | other => exact ⟨h1, h2, h3, h4⟩
  | startTag t a =>
    show ParserInv (handle_starttag st t a)
    have ha := handle_starttag_arena st t a
    have hl := handle_starttag_lastCreated st t a
    refine ⟨?_, ?_, by rw [ha]; exact h3, ?_⟩
    · rcases handle_starttag_stack st t a with hs | ⟨n, hs⟩ <;> simp [hs, h1]
    · rcases handle_starttag_stack st t a with hs | ⟨n, hs⟩
      · rw [hs]; exact h2
      · rw [hs]
        obtain ⟨x, xs, hx⟩ := List.exists_cons_of_ne_nil h1
        rw [hx] at h2 ⊢
        rw [List.getLast?_cons_cons]
        exact h2
    · rcases h4 with h4 | ⟨hln, hpf⟩
      · left; rw [ha]; exact h4
      · right
        refine ⟨by rw [hl]; exact hln, ?_⟩
        rcases handle_starttag_pending st t a with hp | hp
        · rw [hp]; exact hpf
        · exact hp
  | endTag t =>
    show ParserInv (handle_endtag st t)
    rcases handle_endtag_object_arena st t with
      ⟨ha, hl, hp, hs⟩ | ⟨ha, hs⟩ | ⟨hlen, hs, ha, hl, hp⟩
    · refine ⟨by rw [hs]; exact h1, by rw [hs]; exact h2, by rw [ha]; exact h3, ?_⟩
      rcases h4 with h4 | ⟨c1, c2⟩
      · left; rw [ha]; exact h4
      · right; exact ⟨by rw [hl]; exact c1, by rw [hp]; exact c2⟩
    · exact ⟨by rw [hs]; exact h1, by rw [hs]; exact h2, by omega, by left; omega⟩
    · obtain ⟨x, xs, hx⟩ := List.exists_cons_of_ne_nil h1
      rw [hx] at hlen h2 hs
      obtain ⟨y, ys, hy⟩ := List.exists_cons_of_ne_nil
        (List.ne_nil_of_length_pos (by simp at hlen ⊢; omega) : xs ≠ [])
      rw [hy] at h2 hs
      rw [List.getLast?_cons_cons] at h2
      simp only [List.tail_cons] at hs
      refine ⟨by rw [hs]; exact List.cons_ne_nil y ys, by rw [hs]; exact h2,
        by rw [ha]; exact h3, ?_⟩
      rcases h4 with h4 | ⟨c1, c2⟩
      · left; rw [ha]; exact h4
      · right; exact ⟨by rw [hl]; exact c1, by rw [hp]; exact c2⟩

theorem feed_inv (evs : List HEvent) (st : ParserState) (h : ParserInv st) :
    ParserInv (feed st evs) := by
  induction evs generalizing st with
  | nil => exact h
  | cons e evs ih => exact ih (stepEvent st e) (stepEvent_inv st e h)

theorem initState_inv : ParserInv initState := by
  refine ⟨by simp [initState], by simp [initState], by simp [initState], ?_⟩
  right
  exact ⟨rfl, rfl⟩

theorem feed_initState_inv (evs : List HEvent) : ParserInv (feed initState evs) :=
  feed_inv evs initState initState_inv

/-- Claim C6: at every point during parsing the container stack is
non-empty with the synthetic root (index 0) at its bottom; a list-close
(`</UL>`) pops exactly one level when nesting is present
(stack length > 1) and is a complete no-op when only the root remains,
so the stack never pops below the root. -/
theorem container_stack_rooted (evs : List HEvent) :
    (feed initState evs).stack ≠ [] ∧
    (feed initState evs).stack.getLast? = some 0 ∧
    (1 < (feed initState evs).stack.length →
      (handle_endtag (feed initState evs) "ul").stack = (feed initState evs).stack.tail) ∧
    ((feed initState evs).stack.length = 1 →
      handle_endtag (feed initState evs) "ul" = feed initState evs) := by
  obtain ⟨h1, h2, h3, h4⟩ := feed_initState_inv evs
  refine ⟨h1, h2, ?_, ?_⟩
  · intro hlen
    rw [handle_endtag_ul, if_pos hlen]
  · intro hlen
    rw [handle_endtag_ul, if_neg (by omega)]

theorem container_stack_rooted_witness :
    (handle_endtag (feed initState [HEvent.startTag "object" [("type", some "text/sitemap")],
        HEvent.endTag "object", HEvent.startTag "ul" []]) "ul").stack =
      (feed initState [HEvent.startTag "object" [("type", some "text/sitemap")],
        HEvent.endTag "object", HEvent.startTag "ul" []]).stack.tail :=
  (container_stack_rooted _).2.2.1 (by decide)

/-- Claim C5: a list-open (`<UL>`) with no pending push is a strict
no-op, and in particular a list-open with no preceding entry close (the
arena still holds only the root) leaves the parser state — container
stack included — completely unchanged. -/
theorem orphan_list_open_noop :
    (∀ (st : ParserState) (attrs : List (String × Option String)),
        st.pendingPushOnUl = false → handle_starttag st "ul" attrs = st) ∧
    (∀ (evs : List HEvent) (attrs : List (String × Option String)),
        (feed initState evs).arena.length = 1 →
        handle_starttag (feed initState evs) "ul" attrs = feed initState evs) := by
  have base : ∀ (st : ParserState) (attrs : List (String × Option String)),
      st.pendingPushOnUl = false → handle_starttag st "ul" attrs = st := by
    intro st attrs hp
    rw [handle_starttag_ul, if_neg (by rw [hp]; exact Bool.false_ne_true)]
  refine ⟨base, ?_⟩
  intro evs attrs hlen
  obtain ⟨h1, h2, h3, h4⟩ := feed_initState_inv evs
  rcases h4 with h4 | ⟨hln, hpf⟩
  · omega
  · exact base _ attrs hpf

theorem orphan_list_open_noop_witness :
    handle_starttag (feed initState [HEvent.startTag "ul" [], HEvent.other])
        "ul" [("x", none)] =
      feed initState [HEvent.startTag "ul" [], HEvent.other] :=
  orphan_list_open_noop.2 [HEvent.startTag "ul" [], HEvent.other] [("x", none)] (by decide)

/-- Claim C10: after an entry close, at most one nesting level is added:
the first subsequent list-open pushes the just-closed entry (the node at
the old arena end) onto the container stack and clears the pending-push
flag, and a second consecutive list-open with no entry close in between
is a complete no-op. -/
theorem at_most_one_push_per_close (st : ParserState) (h : st.inObject = true)
    (attrs attrs2 : List (String × Option String)) :
    (handle_starttag (handle_endtag st "object") "ul" attrs).stack =
        st.arena.length :: (handle_endtag st "object").stack ∧
    (handle_starttag (handle_endtag st "object") "ul" attrs).pendingPushOnUl = false ∧
    handle_starttag (handle_starttag (handle_endtag st "object") "ul" attrs)
        "ul" attrs2 =
      handle_starttag (handle_endtag st "object") "ul" attrs := by
  obtain ⟨A, sk, io, cn, cl, lc, pp⟩ := st
  cases h
  exact ⟨rfl, rfl, rfl⟩

theorem at_most_one_push_per_close_witness :
    (handle_starttag (handle_endtag
        ⟨[⟨"ROOT", none, []⟩], [0], true, some "A", none, none, false⟩ "object")
        "ul" []).stack =
      (⟨[⟨"ROOT", none, []⟩], [0], true, some "A", none, none, false⟩ :
        ParserState).arena.length ::
        (handle_endtag ⟨[⟨"ROOT", none, []⟩], [0], true, some "A", none, none,
          false⟩ "object").stack :=
  (at_most_one_push_per_close _ rfl [] []).1

/-! ## Path-resolution claims (C1, C2, C7) -/

theorem truthyBase_some (bd : Option String) (h : truthyBase bd = true) :
    ∃ b, bd = some b ∧ b ≠ "" := by
  cases bd with
  | none => exact absurd h (by simp [truthyBase])
  | some b =>
    refine ⟨b, rfl, ?_⟩
    simpa [truthyBase] using h

/-- Claim C2: for base directory `/docs` and target `../../etc/passwd`,
resolution fails with the path-escape warning (carrying the resolved path
`/etc/passwd`), no file is opened, and the result is the same for every
filesystem `fs` — the existence of the escaping path is never consulted,
i.e. the containment check precedes the existence check. -/
theorem path_escape_fail_closed (fs : String → Bool) :
    open_local (fun s => s) (some "/docs") "../../etc/passwd" fs
      = .warnEscape "/etc/passwd" := rfl

/-- Claim C7: any target matching the absolute-URI pattern
(`scheme://...`) after entity decoding and stripping is passed through
unresolved to the web view, for every base directory and every
filesystem — no containment check, no existence check, no joining with
the base directory. -/
theorem absolute_uri_passthrough (ue : String → String) (b loc : String)
    (fs : String → Bool) (hb : b ≠ "")
    (habs : isAbsUri (ue (pyStrip loc)) = true) :
    open_local ue (some b) loc fs = .external (ue (pyStrip loc)) := by
  have hne : ue (pyStrip loc) ≠ "" := by
    intro h
    rw [h] at habs
    exact absurd habs (by decide)
  unfold open_local
  dsimp only
  rw [if_neg (by simp [truthyBase, hb]), if_neg hne, if_pos habs]

theorem absolute_uri_passthrough_witness :
    open_local (fun s => s) (some "/docs") "http://example.com/a" (fun _ => false)
      = .external "http://example.com/a" :=
  absolute_uri_passthrough (fun s => s) "/docs" "http://example.com/a"
    (fun _ => false) (by decide) (by decide)

/-- Claim C1: for every base directory, entity decoder and raw target, if
`open_local` opens a file then the resolved absolute path satisfies the
containment invariant — its normalized form starts with the normalized
base directory (the spec's `resolved.startswith(normalize(base))`) and the
file exists; and any relative target whose resolution falls outside the
base directory is rejected with the escape warning, so no file is
opened. -/
theorem open_local_containment (ue : String → String) (bd : Option String)
    (loc : String) (fs : String → Bool) :
    (∀ p f, open_local ue bd loc fs = .openFile p f →
        ∃ b, bd = some b ∧ startsWithS (normpath p) (normpath b) = true ∧
          fs p = true) ∧
    (∀ b, bd = some b → b ≠ "" →
        ue (pyStrip loc) ≠ "" →
        isAbsUri (ue (pyStrip loc)) = false →
        startsWithS (normpath (resolveTarget b (ue (pyStrip loc))))
            (normpath b) = false →
        open_local ue bd loc fs
          = .warnEscape (resolveTarget b (ue (pyStrip loc)))) := by
  constructor
  · intro p f hopen
    unfold open_local at hopen
    dsimp only at hopen
    split at hopen
    · exact absurd hopen (by simp)
    · split at hopen
      · exact absurd hopen (by simp)
      · split at hopen
        · exact absurd hopen (by simp)
        · split at hopen
          · exact absurd hopen (by simp)
          · split at hopen
            · exact absurd hopen (by simp)
            · rename_i ht hl habs hesc hfs
              obtain ⟨b, hb, hbne⟩ := truthyBase_some bd (not_not.mp ht)
              injection hopen with h1 h2
              subst hb
              simp only [Option.getD_some] at hesc hfs h1
              refine ⟨b, rfl, ?_, ?_⟩
              · rw [← h1]
                exact not_not.mp hesc
              · rw [← h1]
                exact not_not.mp hfs
  · intro b hb hbne hne habs hesc
    subst hb
    unfold open_local
    dsimp only
    rw [if_neg (by simp [truthyBase, hbne]), if_neg hne, if_neg (by simp [habs]),
      if_pos (by simp [Option.getD_some, hesc])]
    rfl

theorem open_local_containment_witness :
    ∃ b, (some "/docs" : Option String) = some b ∧
      startsWithS (normpath "/docs/guide/intro.html") (normpath b) = true ∧
      (fun p => p == "/docs/guide/intro.html") "/docs/guide/intro.html" = true :=
  (open_local_containment (fun s => s) (some "/docs") "guide/intro.html"
    (fun p => p == "/docs/guide/intro.html")).1 "/docs/guide/intro.html" ""
    (by decide)

/-! ## Index-builder claims (C4) -/

/-! Order facts about `charsLe` (Python's string comparison). -/

theorem charsLe_refl : ∀ cs : List Char, charsLe cs cs = true
  | [] => rfl
  | c :: cs => by
    simp only [charsLe]
    rw [if_neg (by omega), if_neg (by omega)]
    exact charsLe_refl cs

theorem charsLe_total : ∀ as bs : List Char, charsLe as bs = true ∨ charsLe bs as = true
  | [], _ => .inl rfl
  | _ :: _, [] => .inr rfl
  | a :: as, b :: bs => by
    simp only [charsLe]
    rcases Nat.lt_trichotomy a.toNat b.toNat with h | h | h
    · left; rw [if_pos h]
    · rw [if_neg (by omega), if_neg (by omega), if_neg (by omega), if_neg (by omega)]
      exact charsLe_total as bs
    · right; rw [if_pos h]

theorem charsLe_trans : ∀ as bs cs : List Char,
    charsLe as bs = true → charsLe bs cs = true → charsLe as cs = true
  | [], _, _, _, _ => rfl
  | _ :: _, [], _, h1, _ => by simp [charsLe] at h1
  | _ :: _, _ :: _, [], _, h2 => by simp [charsLe] at h2
  | a :: as, b :: bs, c :: cs, h1, h2 => by
    simp only [charsLe] at h1 h2 ⊢
    rcases Nat.lt_trichotomy a.toNat b.toNat with hab | hab | hab
    · rcases Nat.lt_trichotomy b.toNat c.toNat with hbc | hbc | hbc
      · rw [if_pos (by omega)]
      · rw [if_pos (by omega)]
      · rw [if_neg (by omega), if_pos hbc] at h2
        exact absurd h2 (by simp)
    · rw [if_neg (by omega), if_neg (by omega)] at h1
      rcases Nat.lt_trichotomy b.toNat c.toNat with hbc | hbc | hbc
      · rw [if_pos (by omega)]
      · rw [if_neg (by omega), if_neg (by omega)] at h2
        rw [if_neg (by omega), if_neg (by omega)]
        exact charsLe_trans as bs cs h1 h2
      · rw [if_neg (by omega), if_pos hbc] at h2
        exact absurd h2 (by simp)
    · rw [if_neg (by omega), if_pos hab] at h1
      exact absurd h1 (by simp)

theorem sortKeyLe_total (a b : String × String) :
    sortKeyLe a b = true ∨ sortKeyLe b a = true :=
  charsLe_total (pyLower a.1).data (pyLower b.1).data

theorem sortKeyLe_trans (a b c : String × String) (h1 : sortKeyLe a b = true)
    (h2 : sortKeyLe b c = true) : sortKeyLe a c = true :=
  charsLe_trans (pyLower a.1).data (pyLower b.1).data (pyLower c.1).data h1 h2

/-! `pySort` is a sorted, stable permutation — the contract of Python's
`list.sort`. -/

theorem pyInsert_perm (le : α → α → Bool) (x : α) (l : List α) :
    List.Perm (pyInsert le x l) (x :: l) := by
  induction l with
  | nil => exact List.Perm.refl _
  | cons h t ih =>
    by_cases hle : le x h = true
    · rw [pyInsert, if_pos hle]
    · rw [pyInsert, if_neg hle]
      exact (List.Perm.cons h ih).trans (List.Perm.swap x h t)

theorem pySort_perm (le : α → α → Bool) (l : List α) :
    List.Perm (pySort le l) l := by
  induction l with
  | nil => exact List.Perm.refl _
  | cons x xs ih =>
    exact (pyInsert_perm le x (pySort le xs)).trans (List.Perm.cons x ih)

theorem mem_pyInsert (le : α → α → Bool) (x y : α) (l : List α) :
    y ∈ pyInsert le x l ↔ y = x ∨ y ∈ l := by
  rw [(pyInsert_perm le x l).mem_iff, List.mem_cons]

theorem pyInsert_pairwise (le : α → α → Bool)
    (total : ∀ a b, le a b = true ∨ le b a = true)
    (trans : ∀ a b c, le a b = true → le b c = true → le a c = true)
    (x : α) (l : List α) (hl : l.Pairwise (fun a b => le a b = true)) :
    (pyInsert le x l).Pairwise (fun a b => le a b = true) := by
  induction l with
  | nil => simp [pyInsert]
  | cons h t ih =>
    rw [List.pairwise_cons] at hl
    obtain ⟨hh, ht⟩ := hl
    by_cases hle : le x h = true
    · rw [pyInsert, if_pos hle]
      refine List.Pairwise.cons ?_ (List.Pairwise.cons hh ht)
      intro y hy
      rcases List.mem_cons.mp hy with rfl | hy
      · exact hle
      · exact trans x h y hle (hh y hy)
    · rw [pyInsert, if_neg hle]
      refine List.Pairwise.cons ?_ (ih ht)
      intro y hy
      rcases (mem_pyInsert le x y t).mp hy with heq | hy
      · subst heq
        rcases total y h with hc | hc
        · exact absurd hc hle
        · exact hc
      · exact hh y hy

theorem pySort_pairwise (le : α → α → Bool)
    (total : ∀ a b, le a b = true ∨ le b a = true)
    (trans : ∀ a b c, le a b = true → le b c = true → le a c = true)
    (l : List α) : (pySort le l).Pairwise (fun a b => le a b = true) := by
  induction l with
  | nil => simp [pySort]
  | cons x xs ih => exact pyInsert_pairwise le total trans x _ ih

theorem pyInsert_filter_of_pos (le : α → α → Bool) (p : α → Bool) (x : α)
    (l : List α) (hx : p x = true)
    (hcomp : ∀ b ∈ l, p b = true → le x b = true) :
    (pyInsert le x l).filter p = x :: l.filter p := by
  induction l with
  | nil => simp [pyInsert, hx]
  | cons h t ih =>
    by_cases hle : le x h = true
    · rw [pyInsert, if_pos hle]
      simp [List.filter_cons, hx]
    · rw [pyInsert, if_neg hle]
      have hph : p h = false := by
        by_contra hc
        exact hle (hcomp h (List.mem_cons_self h t) (by simpa using hc))
      simp only [List.filter_cons, hph, if_false, Bool.false_eq_true]
      exact ih (fun b hb hpb => hcomp b (List.mem_cons_of_mem h hb) hpb)

theorem pyInsert_filter_of_neg (le : α → α → Bool) (p : α → Bool) (x : α)
    (l : List α) (hx : p x = false) :
    (pyInsert le x l).filter p = l.filter p := by
  induction l with
  | nil => simp [pyInsert, hx]
  | cons h t ih =>
    by_cases hle : le x h = true
    · rw [pyInsert, if_pos hle]
      simp [List.filter_cons, hx]
    · rw [pyInsert, if_neg hle]
      simp only [List.filter_cons]
      rw [ih]

theorem pySort_filter_stable (le : α → α → Bool) (p : α → Bool)
    (hcomp : ∀ a b, p a = true → p b = true → le a b = true) (l : List α) :
    (pySort le l).filter p = l.filter p := by
  induction l with
  | nil => rfl
  | cons x xs ih =>
    show (pyInsert le x (pySort le xs)).filter p = (x :: xs).filter p
    by_cases hx : p x = true
    · rw [pyInsert_filter_of_pos le p x _ hx
        (fun b hb hpb => hcomp x b hx hpb), ih]
      simp [List.filter_cons, hx]
    · have hx' : p x = false := by simpa using hx
      rw [pyInsert_filter_of_neg le p x _ hx', ih]
      simp [List.filter_cons, hx']

mutual

theorem walkNode_eq (n : TocNode) :
    walkNode n = (preorderNode n).filterMap collectOne := by
  cases n with
  | node t l cs =>
    have h1 : walkNode (TocNode.node t l cs) =
        (match l with
         | some s => if s = "" then [] else [(t, s)]
         | none => []) ++ walkNodes cs := rfl
    have h2 : preorderNode (TocNode.node t l cs) =
        TocNode.node t l cs :: preorderNodes cs := rfl
    rw [h1, h2, List.filterMap_cons, walkNodes_eq cs]
    cases l with
    | none => simp [collectOne, TocNode.loc]
    | some s =>
      by_cases hs : s = "" <;>
        simp [collectOne, TocNode.loc, TocNode.title, hs]

theorem walkNodes_eq (cs : List TocNode) :
    walkNodes cs = (preorderNodes cs).filterMap collectOne := by
  cases cs with
  | nil => rfl
  | cons c cs =>
    have h1 : walkNodes (c :: cs) = walkNode c ++ walkNodes cs := rfl
    have h2 : preorderNodes (c :: cs) = preorderNode c ++ preorderNodes cs := rfl
    rw [h1, h2, List.filterMap_append, walkNode_eq c, walkNodes_eq cs]

end

/-- Claim C4: the index builder collects, in depth-first pre-order,
exactly the nodes with a non-empty target (`walkNodes` equals the
pre-order listing filtered through `collectOne`), and `load_index_items`
is a permutation of that collection (duplicates preserved, unmerged),
sorted case-insensitively by title, and stable: for every key, the
entries with that case-folded title appear in the same order as in the
pre-order collection.  The titles `Banana`/`apple`/`Cherry` flatten to
`apple`, `Banana`, `Cherry`. -/
theorem index_flatten_sort (root : TocNode) :
    walkNodes root.children = (preorderNodes root.children).filterMap collectOne ∧
    List.Perm (load_index_items root) (walkNodes root.children) ∧
    (load_index_items root).Pairwise (fun a b => sortKeyLe a b = true) ∧
    (∀ k : String,
      (load_index_items root).filter (fun q => pyLower q.1 == k) =
        (walkNodes root.children).filter (fun q => pyLower q.1 == k)) ∧
    load_index_items (TocNode.node "ROOT" none
        [TocNode.node "Banana" (some "b.html") [],
         TocNode.node "apple" (some "a.html")
           [TocNode.node "Cherry" (some "c.html") []],
         TocNode.node "NoTarget" none []])
      = [("apple", "a.html"), ("Banana", "b.html"), ("Cherry", "c.html")] := by
  refine ⟨walkNodes_eq root.children, pySort_perm _ _,
    pySort_pairwise _ sortKeyLe_total sortKeyLe_trans _, ?_, by decide⟩
  intro k
  refine pySort_filter_stable sortKeyLe _ ?_ _
  intro a b ha hb
  have ha' : pyLower a.1 = k := by simpa using ha
  have hb' : pyLower b.1 = k := by simpa using hb
  unfold sortKeyLe
  rw [ha', hb']
  exact charsLe_refl _

/-! ## The nested-sitemap shape claim (C3) -/

theorem feed_append (st : ParserState) (a b : List HEvent) :
    feed st (a ++ b) = feed (feed st a) b :=
  List.foldl_append stepEvent st a b

theorem list_get_mid (A : List α) (d : α) (Y : List α) :
    (A ++ d :: Y).get? A.length = some d := by
  induction A with
  | nil => rfl
  | cons a A ih => simpa using ih

theorem list_set_mid (A : List α) (d d' : α) (Y : List α) :
    (A ++ d :: Y).set A.length d' = A ++ d' :: Y := by
  induction A with
  | nil => rfl
  | cons a A ih =>
    show a :: (A ++ d :: Y).set A.length d' = a :: (A ++ d' :: Y)
    rw [ih]

theorem appendChild_mid (A : List TocData) (T : String) (L : Option String)
    (cs : List Nat) (Y : List TocData) (j : Nat) :
    appendChild (A ++ ⟨T, L, cs⟩ :: Y) A.length j = A ++ ⟨T, L, cs ++ [j]⟩ :: Y := by
  unfold appendChild
  rw [list_get_mid]
  dsimp only
  rw [list_set_mid]

theorem feed_entry (A : List TocData) (sk : List Nat) (cn cl : Option String)
    (lc : Option Nat) (pp : Bool) (p : String × String) :
    feed ⟨A, sk, false, cn, cl, lc, pp⟩ (entryEvents p) =
      ⟨appendChild (A ++ [entryNode p]) (sk.headD 0) A.length, sk, false,
        some (pyStrip p.1), some (pyStrip p.2), some A.length, true⟩ := rfl

theorem feed_entries (ps : List (String × String)) :
    ∀ (st : ParserState) (A Y : List TocData) (T : String) (L : Option String)
      (cs : List Nat) (t : List Nat),
      st.arena = A ++ ⟨T, L, cs⟩ :: Y →
      st.stack = A.length :: t →
      st.inObject = false →
      (feed st (entriesEvents ps)).arena
          = A ++ ⟨T, L, cs ++ List.range' (A.length + 1 + Y.length) ps.length⟩ ::
              (Y ++ ps.map entryNode) ∧
      (feed st (entriesEvents ps)).stack = A.length :: t ∧
      (feed st (entriesEvents ps)).inObject = false := by
  induction ps with
  | nil =>
    intro st A Y T L cs t ha hs hio
    refine ⟨?_, hs, hio⟩
    rw [show entriesEvents [] = [] from rfl, feed_nil, ha]
    simp
  | cons p ps ih =>
    intro st A Y T L cs t ha hs hio
    obtain ⟨Ar, sk, io, cn, cl, lc, pp⟩ := st
    dsimp only at ha hs hio
    subst ha hs hio
    rw [show entriesEvents (p :: ps) = entryEvents p ++ entriesEvents ps from rfl,
      feed_append, feed_entry]
    have hmid : appendChild ((A ++ ⟨T, L, cs⟩ :: Y) ++ [entryNode p])
        ((A.length :: t).headD 0) (A ++ ⟨T, L, cs⟩ :: Y).length
        = A ++ ⟨T, L, cs ++ [(A ++ (⟨T, L, cs⟩ : TocData) :: Y).length]⟩ ::
            (Y ++ [entryNode p]) := by
      rw [show (A ++ ⟨T, L, cs⟩ :: Y) ++ [entryNode p]
          = A ++ ⟨T, L, cs⟩ :: (Y ++ [entryNode p]) by simp,
        show ((A.length :: t).headD 0) = A.length from rfl]
      exact appendChild_mid A T L cs (Y ++ [entryNode p]) _
    rw [hmid]
    have hlen : (A ++ (⟨T, L, cs⟩ : TocData) :: Y).length = A.length + 1 + Y.length := by
      simp
      omega
    obtain ⟨ha2, hs2, hio2⟩ := ih
      ⟨A ++ ⟨T, L, cs ++ [(A ++ (⟨T, L, cs⟩ : TocData) :: Y).length]⟩ ::
          (Y ++ [entryNode p]), A.length :: t, false,
        some (pyStrip p.1), some (pyStrip p.2),
        some (A ++ (⟨T, L, cs⟩ : TocData) :: Y).length, true⟩
      A (Y ++ [entryNode p]) T L
      (cs ++ [(A ++ (⟨T, L, cs⟩ : TocData) :: Y).length]) t rfl rfl rfl
    refine ⟨?_, hs2, hio2⟩
    rw [ha2, hlen]
    have hY : (Y ++ [entryNode p]).length = Y.length + 1 := by simp
    rw [hY]
    have hr : List.range' (A.length + 1 + Y.length) (ps.length + 1)
        = (A.length + 1 + Y.length) :: List.range' (A.length + 1 + Y.length + 1) ps.length :=
      List.range'_succ _ _ _
    have hstart : A.length + 1 + (Y.length + 1) = A.length + 1 + Y.length + 1 := by omega
    rw [hstart]
    simp [hr, List.append_assoc]

theorem appendChild_append (A B : List TocData) (i j : Nat) (h : i < A.length) :
    appendChild (A ++ B) i j = appendChild A i j ++ B := by
  unfold appendChild
  rw [List.get?_eq_getElem?, List.get?_eq_getElem?, List.getElem?_append_left h]
  cases hA : A[i]? with
  | none => rfl
  | some d =>
    dsimp only
    rw [List.set_append_left _ _ h]

theorem appendChild_len (arena : List TocData) (i j : Nat) :
    (appendChild arena i j).length = arena.length := by
  unfold appendChild
  split <;> simp

theorem groupArena_length (A : List TocData)
    (g : (String × String) × List (String × String)) :
    (groupArena A g).length = A.length + 1 + g.2.length := by
  simp [groupArena, appendChild_len]
  omega

theorem feed_push (A : List TocData) (sk : List Nat) (cn cl : Option String)
    (n : Nat) :
    feed ⟨A, sk, false, cn, cl, some n, true⟩ [HEvent.startTag "ul" []]
      = ⟨A, n :: sk, false, cn, cl, some n, false⟩ := rfl

theorem feed_pop (A : List TocData) (x y : Nat) (sk : List Nat)
    (cn cl : Option String) (lc : Option Nat) (pp : Bool) :
    feed ⟨A, x :: y :: sk, false, cn, cl, lc, pp⟩ [HEvent.endTag "ul"]
      = ⟨A, y :: sk, false, cn, cl, lc, pp⟩ := by
  show handle_endtag ⟨A, x :: y :: sk, false, cn, cl, lc, pp⟩ "ul" = _
  rw [handle_endtag_ul, if_pos (by simp)]
  rfl

theorem feed_group (g : (String × String) × List (String × String))
    (st : ParserState) (hs : st.stack = [0]) (hio : st.inObject = false)
    (hpos : 0 < st.arena.length) :
    (feed st (groupEvents g)).arena = groupArena st.arena g ∧
    (feed st (groupEvents g)).stack = [0] ∧
    (feed st (groupEvents g)).inObject = false := by
  obtain ⟨Ar, sk, io, cn, cl, lc, pp⟩ := st
  dsimp only at hs hio hpos
  subst hs hio
  rw [show groupEvents g = entryEvents g.1 ++
      ([HEvent.startTag "ul" []] ++ (entriesEvents g.2 ++ [HEvent.endTag "ul"]))
    by simp [groupEvents, List.append_assoc],
    feed_append, feed_entry, feed_append, feed_push, feed_append]
  have hXlen : (appendChild Ar 0 Ar.length).length = Ar.length := appendChild_len Ar 0 Ar.length
  have harena : appendChild (Ar ++ [entryNode g.1]) (([0] : List Nat).headD 0) Ar.length
      = appendChild Ar 0 Ar.length ++
          (⟨entryTitle g.1.1, entryLoc g.1.2, []⟩ : TocData) :: [] := by
    rw [show (([0] : List Nat).headD 0) = 0 from rfl, appendChild_append Ar _ 0 _ hpos]
    rfl
  obtain ⟨ha2, hs2, hio2⟩ := feed_entries g.2
    ⟨appendChild (Ar ++ [entryNode g.1]) (([0] : List Nat).headD 0) Ar.length,
      Ar.length :: [0], false, some (pyStrip g.1.1), some (pyStrip g.1.2),
      some Ar.length, false⟩
    (appendChild Ar 0 Ar.length) [] (entryTitle g.1.1) (entryLoc g.1.2) [] [0]
    (by dsimp only; rw [harena]) (by dsimp only; rw [hXlen]) rfl
  cases hst3 : feed
      ⟨appendChild (Ar ++ [entryNode g.1]) (([0] : List Nat).headD 0) Ar.length,
        Ar.length :: [0], false, some (pyStrip g.1.1), some (pyStrip g.1.2),
        some Ar.length, false⟩ (entriesEvents g.2) with
  | mk A3 sk3 io3 cn3 cl3 lc3 pp3 =>
    rw [hst3] at ha2 hs2 hio2
    dsimp only at ha2 hs2 hio2
    subst ha2 hio2
    rw [hs2, hXlen, feed_pop]
    refine ⟨?_, rfl, rfl⟩
    dsimp only
    simp [groupArena]

theorem feed_sitemap (gs : List ((String × String) × List (String × String))) :
    ∀ (st : ParserState), st.stack = [0] → st.inObject = false →
    0 < st.arena.length →
    (feed st (sitemapEvents gs)).arena = groupsArena st.arena gs ∧
    (feed st (sitemapEvents gs)).stack = [0] ∧
    (feed st (sitemapEvents gs)).inObject = false := by
  induction gs with
  | nil =>
    intro st h1 h2 h3
    rw [show sitemapEvents [] = [] from rfl, feed_nil]
    exact ⟨rfl, h1, h2⟩
  | cons g gs ih =>
    intro st h1 h2 h3
    rw [show sitemapEvents (g :: gs) = groupEvents g ++ sitemapEvents gs from rfl,
      feed_append]
    obtain ⟨ha, hs, hio⟩ := feed_group g st h1 h2 h3
    have hpos2 : 0 < (feed st (groupEvents g)).arena.length := by
      rw [ha, groupArena_length]
      omega
    obtain ⟨ha2, hs2, hio2⟩ := ih (feed st (groupEvents g)) hs hio hpos2
    refine ⟨?_, hs2, hio2⟩
    rw [ha2, ha]
    rfl

theorem appendChild_cons (d : TocData) (Y : List TocData) (j : Nat) :
    appendChild (d :: Y) 0 j = ⟨d.title, d.loc, d.children ++ [j]⟩ :: Y := rfl

theorem groupsArena_spec (gs : List ((String × String) × List (String × String))) :
    ∀ (T : String) (L : Option String) (cs : List Nat) (Y : List TocData),
    groupsArena (⟨T, L, cs⟩ :: Y) gs
      = ⟨T, L, cs ++ topIdxs (Y.length + 1) gs⟩ :: (Y ++ gBlocks (Y.length + 1) gs) := by
  induction gs with
  | nil =>
    intro T L cs Y
    simp [groupsArena, topIdxs, gBlocks]
  | cons g gs ih =>
    intro T L cs Y
    show groupsArena (groupArena (⟨T, L, cs⟩ :: Y) g) gs = _
    have hg : groupArena (⟨T, L, cs⟩ :: Y) g
        = ⟨T, L, cs ++ [Y.length + 1]⟩ :: (Y ++ gBlock (Y.length + 1) g) := by
      simp [groupArena, appendChild_cons, gBlock, topdData]
    rw [hg, ih]
    have harith : (Y ++ gBlock (Y.length + 1) g).length + 1 = (Y.length + 1) + gSize g := by
      simp [gBlock, gSize]
      omega
    rw [harith]
    rw [show topIdxs (Y.length + 1) (g :: gs)
        = (Y.length + 1) :: topIdxs ((Y.length + 1) + gSize g) gs from rfl,
      show gBlocks (Y.length + 1) (g :: gs)
        = gBlock (Y.length + 1) g ++ gBlocks ((Y.length + 1) + gSize g) gs from rfl]
    simp [List.append_assoc]

theorem topIdxs_length (gs : List ((String × String) × List (String × String))) :
    ∀ n, (topIdxs n gs).length = gs.length := by
  induction gs with
  | nil => intro n; rfl
  | cons g gs ih => intro n; simp [topIdxs, ih]

theorem lookup_subs (subs : List (String × String)) :
    ∀ (Q R : List TocData) (m : Nat), Q.length = m →
    List.Forall₂ (fun k s => (Q ++ (subs.map entryNode ++ R)).get? k = some (entryNode s))
      (List.range' m subs.length) subs := by
  induction subs with
  | nil =>
    intro Q R m hm
    exact List.Forall₂.nil
  | cons s subs ih =>
    intro Q R m hm
    rw [show ((s :: subs).length) = subs.length + 1 from rfl, List.range'_succ]
    refine List.Forall₂.cons ?_ ?_
    · subst hm
      rw [show ((s :: subs).map entryNode ++ R) = entryNode s :: (subs.map entryNode ++ R)
        from rfl]
      exact list_get_mid Q _ _
    · have h2 := ih (Q ++ [entryNode s]) R (m + 1) (by simp [hm])
      rw [show (Q ++ [entryNode s]) ++ (subs.map entryNode ++ R)
          = Q ++ ((s :: subs).map entryNode ++ R) by simp] at h2
      exact h2

theorem lookup_tops (gs : List ((String × String) × List (String × String))) :
    ∀ (P : List TocData) (n : Nat), P.length = n →
    List.Forall₂ (fun j g =>
      (P ++ gBlocks n gs).get? j = some (topdData j g) ∧
      List.Forall₂ (fun k s => (P ++ gBlocks n gs).get? k = some (entryNode s))
        (List.range' (j + 1) g.2.length) g.2)
      (topIdxs n gs) gs := by
  induction gs with
  | nil =>
    intro P n hn
    exact List.Forall₂.nil
  | cons g gs ih =>
    intro P n hn
    rw [show topIdxs n (g :: gs) = n :: topIdxs (n + gSize g) gs from rfl]
    refine List.Forall₂.cons ⟨?_, ?_⟩ ?_
    · subst hn
      rw [show gBlocks P.length (g :: gs)
          = topdData P.length g :: (g.2.map entryNode ++ gBlocks (P.length + gSize g) gs) by
        simp [gBlocks, gBlock]]
      exact list_get_mid P _ _
    · subst hn
      have h2 := lookup_subs g.2 (P ++ [topdData P.length g])
        (gBlocks (P.length + gSize g) gs) (P.length + 1) (by simp)
      rw [show (P ++ [topdData P.length g]) ++
            (g.2.map entryNode ++ gBlocks (P.length + gSize g) gs)
          = P ++ gBlocks P.length (g :: gs) by simp [gBlocks, gBlock]] at h2
      exact h2
    · have h3 := ih (P ++ gBlock n g) (n + gSize g)
        (by simp [gBlock, gSize, hn]; omega)
      rw [show (P ++ gBlock n g) ++ gBlocks (n + gSize g) gs = P ++ gBlocks n (g :: gs) by
        simp [gBlocks]] at h3
      exact h3

/-- Claim C3: a sitemap consisting of groups — each a top-level entry
immediately followed by a nested sub-list of entries — parses into an
arena whose root (index 0) has exactly one child per group in input
order; each such child carries its group's title and target and has
exactly one child per sub-entry of its group, again in input order, each
carrying that sub-entry's title and target.  Instantiating all groups
with sub-lists of length `M` gives the spec's P1: `N` root children, each
with exactly `M` children. -/
theorem nested_sitemap_tree_shape
    (gs : List ((String × String) × List (String × String))) :
    ∃ rootd, ((feed initState (sitemapEvents gs)).arena).get? 0 = some rootd ∧
      rootd.children.length = gs.length ∧
      List.Forall₂ (fun j g => ∃ nd,
          ((feed initState (sitemapEvents gs)).arena).get? j = some nd ∧
          nd.title = entryTitle g.1.1 ∧ nd.loc = entryLoc g.1.2 ∧
          nd.children.length = g.2.length ∧
          List.Forall₂ (fun k s => ∃ sd,
              ((feed initState (sitemapEvents gs)).arena).get? k = some sd ∧
              sd.title = entryTitle s.1 ∧ sd.loc = entryLoc s.2 ∧ sd.children = [])
            nd.children g.2)
        rootd.children gs := by
  obtain ⟨ha, hs, hio⟩ := feed_sitemap gs initState rfl rfl (by simp [initState])
  rw [ha, show (initState.arena) = (⟨"ROOT", none, []⟩ : TocData) :: [] from rfl,
    groupsArena_spec gs "ROOT" none [] []]
  simp only [List.length_nil, List.nil_append, Nat.zero_add]
  refine ⟨⟨"ROOT", none, topIdxs 1 gs⟩, rfl, by simp [topIdxs_length], ?_⟩
  have hlook := lookup_tops gs [⟨"ROOT", none, topIdxs 1 gs⟩] 1 (by simp)
  rw [List.singleton_append] at hlook
  refine hlook.imp ?_
  intro j g h
  refine ⟨topdData j g, h.1, rfl, rfl, by simp [topdData], ?_⟩
  refine h.2.imp ?_
  intro k s hk
  exact ⟨entryNode s, hk, rfl, rfl, rfl⟩

/-! ## Encoding and load-frame claims (C8, C9) -/

/-- Claim C8: the loader attempts the fixed ordered list of strict
encodings (utf-8-sig, utf-8, cp1252, latin-1) and returns the first
success; if all strict attempts failed it would fall back to permissive
UTF-8 decoding — and the strict chain can never be exhausted, because
strict latin-1 decoding succeeds on every byte sequence, so the loader
returns a decoded string for every input and never fails on encoding
alone. -/
theorem read_text_total_ordered (bs : List (Fin 256)) :
    (∃ cs, latin1Decode bs = some cs) ∧
    (∀ cs, utf8SigDecode bs = some cs → read_text_fallback bs = ⟨cs⟩) ∧
    (utf8SigDecode bs = none →
      ∀ cs, utf8DecodeStrict bs = some cs → read_text_fallback bs = ⟨cs⟩) ∧
    (utf8SigDecode bs = none → utf8DecodeStrict bs = none →
      ∀ cs, cp1252Decode bs = some cs → read_text_fallback bs = ⟨cs⟩) ∧
    (utf8SigDecode bs = none → utf8DecodeStrict bs = none →
      cp1252Decode bs = none →
      ∀ cs, latin1Decode bs = some cs → read_text_fallback bs = ⟨cs⟩) ∧
    (utf8SigDecode bs = none → utf8DecodeStrict bs = none →
      cp1252Decode bs = none → latin1Decode bs = none →
      read_text_fallback bs = ⟨utf8DecodeIgnore bs⟩) := by
  refine ⟨⟨_, rfl⟩, ?_, ?_, ?_, ?_, ?_⟩
  · intro cs h
    unfold read_text_fallback
    rw [h]
  · intro h1 cs h
    unfold read_text_fallback
    rw [h1, h]
  · intro h1 h2 cs h
    unfold read_text_fallback
    rw [h1, h2, h]
  · intro h1 h2 h3 cs h
    unfold read_text_fallback
    rw [h1, h2, h3, h]
  · intro h1 h2 h3 h4
    unfold read_text_fallback
    rw [h1, h2, h3, h4]

theorem read_text_total_ordered_witness :
    read_text_fallback [(0x41 : Fin 256)] = ⟨['A']⟩ :=
  (read_text_total_ordered [(0x41 : Fin 256)]).2.1 ['A'] (by decide)

/-- Claim C9: if no side-car contents sitemap exists next to the archive
and the extraction fallback fails or yields no contents file, the load
operation reports failure and leaves the prior session untouched: the
base directory, the contents tree and the index list all keep their
previous values. -/
theorem load_failure_frame (env : LoadEnv) (s : Session) (chm_path : String)
    (hno : env.fileExists (posixJoin (dirname chm_path)
        (splitextStem (basename chm_path) ++ ".hhc")) = false)
    (hfail : env.decompileOk = false ∨ env.foundHhc = none) :
    (load_from_chm_path env s chm_path).1 = s ∧
    ((load_from_chm_path env s chm_path).2 = .errNoDecompile ∨
     (load_from_chm_path env s chm_path).2 = .errNoHhc) := by
  unfold load_from_chm_path
  dsimp only
  rw [if_neg (by simp [hno])]
  rcases hfail with hf | hf
  · rw [if_pos (by simp [hf])]
    exact ⟨rfl, .inl rfl⟩
  · by_cases hd : env.decompileOk = true
    · rw [if_neg (by simp [hd]), hf]
      exact ⟨rfl, .inr rfl⟩
    · have hd2 : env.decompileOk = false := by
        simpa [Bool.not_eq_true] using hd
      rw [if_pos (by simp [hd2])]
      exact ⟨rfl, .inl rfl⟩

theorem load_failure_frame_witness :
    (load_from_chm_path ⟨fun _ => false, fun _ => [], "/tmp/t", false, none, none⟩
        ⟨some "/docs", [⟨"ROOT", none, []⟩], [("a", "b")]⟩ "a/b.chm").1
      = ⟨some "/docs", [⟨"ROOT", none, []⟩], [("a", "b")]⟩ :=
  (load_failure_frame ⟨fun _ => false, fun _ => [], "/tmp/t", false, none, none⟩
    ⟨some "/docs", [⟨"ROOT", none, []⟩], [("a", "b")]⟩ "a/b.chm"
    rfl (.inl rfl)).1
